import Mathlib

/-
Verification of the chunked FASTA splitting / placeholder reconciliation core
(pbtools.pbtranscript.ice.IcePartialSplit) and the SAM CIGAR filter of the
cDNA_primer repository, via a shallow embedding.

The filesystem is modelled as an explicit state: a list of created directories
and an association list from file paths to FASTA record contents (most recent
write first).  Pure helpers embed the Python functions line by line; helpers
whose code is not in the excerpted sources are modelled from the specification
and marked as such in their doc comments.
-/

/-- A FASTA record: identifier and sequence payload (spec section 3). -/
structure FastaRecord where
  ident : String
  seq : String
deriving DecidableEq, Repr

/-- Filesystem state: created directories, and files as an association list
from path to record contents; the most recent write is first. -/
structure FS where
  dirs : List String
  files : List (String × List FastaRecord)
deriving DecidableEq, Repr

/-- Look up the current contents of a file, if it exists. -/
def FS.read? (fs : FS) (p : String) : Option (List FastaRecord) :=
  (fs.files.find? (fun q => q.1 == p)).map Prod.snd

/-- Write (create or overwrite) a file. -/
def FS.writeFile (fs : FS) (p : String) (c : List FastaRecord) : FS :=
  { fs with files := (p, c) :: fs.files }

/-- Modelled from the spec: pbtools.pbtranscript.Utils.mkdir is not under src/.
Section 6: an idempotent directory-creation utility (no error if present). -/
def FS.mkdir (fs : FS) (d : String) : FS :=
  if d ∈ fs.dirs then fs else { fs with dirs := d :: fs.dirs }

/-- Modelled from the spec: pbtools.pbtranscript.Utils.touch is not under src/.
Section 4.3: create an empty placeholder file at the path; an existing file is
left with its contents (Unix touch semantics, zero-byte placeholder per
section 9). -/
def FS.touch (fs : FS) (p : String) : FS :=
  if (fs.read? p).isSome then fs else fs.writeFile p []

/-- Decimal digit characters of n div 10^k, most significant first, with fuel;
empty for n = 0. -/
def decimalCharsAux : Nat → Nat → List Char
  | 0, _ => []
  | fuel + 1, n =>
    if n = 0 then [] else decimalCharsAux fuel (n / 10) ++ [Nat.digitChar (n % 10)]

/-- Standard decimal rendering of a natural number. -/
def decimalChars (n : Nat) : List Char :=
  if n = 0 then ['0'] else decimalCharsAux n n

/-- Characters of Python-style zero-padded decimal formatting to width 2,
as in the format spec 02d used for chunk indices. -/
def pad2chars (n : Nat) : List Char :=
  if n < 10 then '0' :: decimalChars n else decimalChars n

/-- Python-style 02d formatting of a chunk index. -/
def pad2 (n : Nat) : String := ⟨pad2chars n⟩

/-- Numeric value of a decimal digit character (used only to prove that the
decimal rendering is injective). -/
def charVal (c : Char) : Nat := c.toNat - 48

/-- The file name of the i-th chunk for a given name stem: the stem suffixed
with an underscore, the zero-padded index and the .fa extension
(IcePartialSplit.py line 193: input.split_ with 02d formatting and .fa). -/
def chunkName (stem : String) (i : Nat) : String :=
  stem ++ "_" ++ pad2 i ++ ".fa"

/-- Full path of the i-th chunk file written under a directory. -/
def splitPath (out_dir stem : String) (i : Nat) : String :=
  out_dir ++ chunkName stem i

/-- Modelled from the spec: the IceFiles class is not under src/.  The nfl
output subdirectory, root_dir/output/map_noFL/ (IcePartialSplit.py lines 79
and 193). -/
def IceFiles.nfl_dir (root_dir : String) : String :=
  root_dir ++ "/output/map_noFL/"

/-- Modelled from the spec: IceFiles.nfl_fa_i is not under src/.  The expected
path of the i-th chunk, root_dir/output/map_noFL/input.split_NN.fa
(IcePartialSplit.py line 193). -/
def IceFiles.nfl_fa_i (root_dir : String) (i : Nat) : String :=
  splitPath (IceFiles.nfl_dir root_dir) "input.split" i

/-- Split a list into consecutive chunks of n elements (the last may be
shorter), with fuel bounding the number of produced chunks. -/
def chunkListGo (n : Nat) : Nat → List α → List (List α)
  | _, [] => []
  | 0, _ :: _ => []
  | fuel + 1, x :: xs => (x :: xs).take n :: chunkListGo n fuel ((x :: xs).drop n)

/-- Split a list into consecutive chunks of n elements; the last chunk may be
shorter.  For n = 0 the result is unspecified (the callers guarantee n ≥ 1). -/
def chunkList (n : Nat) (l : List α) : List (List α) :=
  chunkListGo n l.length l

/-- Modelled from the spec: pbtools.pbtranscript.io.FastaSplitter.splitFasta is
not under src/.  Section 4.1: write successive chunks of at most
reads_per_split records, in input order, to out_dir, each named by the stem
and a two-digit zero-padded sequential index; return the list of paths
actually written (only non-empty chunks are written).  The caller guarantees
reads_per_split ≥ 1, so the failure branch for a smaller value is not
modelled. -/
def splitFasta (fs : FS) (records : List FastaRecord) (reads_per_split : Nat)
    (out_dir stem : String) : List String × FS :=
  let chunks := chunkList reads_per_split records
  let pairs := chunks.enum.map (fun ic => (splitPath out_dir stem ic.1, ic.2))
  (pairs.map Prod.fst, pairs.foldl (fun a pc => a.writeFile pc.1 pc.2) fs)

/-- The reconciliation loop of IcePartialSplit.run (lines 232-235): touch every
expected chunk path that the splitter did not report as written. -/
def reconcile (fs : FS) (splitted_fas_todo splitted_fas_done : List String) : FS :=
  splitted_fas_todo.foldl
    (fun a fa => if fa ∈ splitted_fas_done then a else a.touch fa) fs

/-- Modelled from the spec: pbtools.pbtranscript.ice.IceUtils.num_reads_in_fasta
is not under src/.  Section 6: the number of records in a FASTA file, a
non-negative integer. -/
def num_reads_in_fasta (records : List FastaRecord) : Nat :=
  records.length

/-- IcePartialSplit.py line 207: int(max(1, ceil(num_reads / N))).  The file is
Python 2 (built under lib.linux-x86_64-2.7), so the division num_reads / N on
integers floors first and ceil is then the identity: the computed value is
max(1, floor division of num_reads by N), embedded with Int.fdiv. -/
def reads_per_split (num_reads : Nat) (N : Int) : Int :=
  max 1 (Int.fdiv (Int.ofNat num_reads) N)

/-- The value the spec's words prescribe for the chunk count resolver
(sections 4.2 and 8): records_per_chunk equals max(1, ceil(R / N)), with a
true mathematical ceiling.  Stated for comparison with reads_per_split. -/
def reads_per_split_spec (num_reads N : Nat) : Nat :=
  max 1 ((num_reads + N - 1) / N)

/-- IcePartialSplit.__init__ (lines 149-154): reject N ≥ 1000 with a
ValueError; no other validation of N happens at construction. -/
def IcePartialSplit_init (N : Int) : Except String Unit :=
  if 1000 ≤ N then
    .error ("N = " ++ toString N ++ " > 1000 is too large.")
  else
    .ok ()

/-- IcePartialSplit._validate_inputs (lines 180-209): build the list of
expected chunk paths for indices 0..N-1, create the nfl output directory,
fail if the input FASTA does not exist, then count the reads and compute
reads per chunk.  The input FASTA is modelled as an optional record list:
none means the path does not exist (nfs_exists is false).  Python raises
ZeroDivisionError at line 207 when N = 0. -/
def IcePartialSplit_validate_inputs (fs : FS) (root_dir nfl_fa : String)
    (input : Option (List FastaRecord)) (N : Int) :
    Except String (Nat × Int × String × List String) × FS :=
  let nfl_dir := IceFiles.nfl_dir root_dir
  let splitted_nfl_fas := (List.range N.toNat).map (IceFiles.nfl_fa_i root_dir)
  let fs1 := fs.mkdir nfl_dir
  match input with
  | none =>
    (.error ("The input non-full-length reads fasta file " ++ nfl_fa ++
             " does not exists. "), fs1)
  | some records =>
    if N = 0 then
      (.error "ZeroDivisionError: integer division or modulo by zero", fs1)
    else
      let num_reads := num_reads_in_fasta records
      (.ok (num_reads, reads_per_split num_reads N, nfl_dir, splitted_nfl_fas), fs1)

/-- IcePartialSplit.run (lines 211-235): validate inputs, split the input
FASTA into chunks of reads_per_split records under the nfl directory, then
touch every expected chunk path not reported by the splitter. -/
def IcePartialSplit_run (fs : FS) (root_dir nfl_fa : String)
    (input : Option (List FastaRecord)) (N : Int) : Except String Unit × FS :=
  match IcePartialSplit_validate_inputs fs root_dir nfl_fa input N with
  | (.error e, fs1) => (.error e, fs1)
  | (.ok (_, rps, nfl_dir, splitted_fas_todo), fs1) =>
    let res := splitFasta fs1 (input.getD []) rps.toNat nfl_dir "input.split"
    (.ok (), reconcile res.2 splitted_fas_todo res.1)

/-- A SAM line: either a header line, or an alignment line carrying its CIGAR
field and its full text. -/
inductive SamLine where
  | header (line : String)
  | aln (cigar : String) (line : String)
deriving DecidableEq, Repr

/-- Modelled from the spec: the CIGAR operator alphabet (section 4.5 with the
section 8 scenario declaring X invalid): the classic SAM operators
M, I, D, N, S, H, P. -/
def isCigarOp (c : Char) : Bool :=
  c == 'M' || c == 'I' || c == 'D' || c == 'N' || c == 'S' || c == 'H' || c == 'P'

/-- CIGAR syntax automaton over the characters: the Bool argument records
whether we are inside a run length (at least one digit read).  A string is
accepted when it ends at an operator boundary. -/
def cigarOk : Bool → List Char → Bool
  | false, [] => true
  | true, [] => false
  | false, c :: cs => c.isDigit && cigarOk true cs
  | true, c :: cs => if c.isDigit then cigarOk true cs else isCigarOp c && cigarOk false cs

/-- Modelled from the spec: the CIGAR validity predicate of
pbtools.pbtranscript.Utils.filter_sam (not under src/), section 4.5: one or
more groups of a decimal run length followed by an operator. -/
def validCigar (s : String) : Bool :=
  !s.data.isEmpty && cigarOk false s.data

/-- Whether the SAM filter keeps a line: headers always, alignment lines
exactly when their CIGAR string is syntactically valid. -/
def keepSamLine : SamLine → Bool
  | .header _ => true
  | .aln cigar _ => validCigar cigar

/-- Modelled from the spec: pbtools.pbtranscript.Utils.filter_sam is not under
src/ (only its caller SAMFilterRunner.run is).  Section 4.5: a single pass
copying every header line unchanged and every alignment line whose CIGAR
string is syntactically valid, dropping the rest. -/
def filter_sam (input : List SamLine) : List SamLine :=
  input.filter keepSamLine


/-! ### Filesystem lemmas -/

theorem FS.files_mkdir (fs : FS) (d : String) : (fs.mkdir d).files = fs.files := by
  simp only [FS.mkdir]
  split <;> rfl

theorem FS.read?_mkdir (fs : FS) (d p : String) : (fs.mkdir d).read? p = fs.read? p := by
  simp [FS.read?, FS.files_mkdir]

theorem FS.mem_dirs_mkdir (fs : FS) (d : String) : d ∈ (fs.mkdir d).dirs := by
  simp only [FS.mkdir]
  split
  · assumption
  · exact List.mem_cons_self _ _

theorem FS.read?_writeFile (fs : FS) (q p : String) (c : List FastaRecord) :
    (fs.writeFile q c).read? p = if q = p then some c else fs.read? p := by
  by_cases h : q = p
  · rw [if_pos h]
    show (((q, c) :: fs.files).find? (fun r => r.1 == p)).map Prod.snd = some c
    rw [List.find?_cons_of_pos _ (by simp [h])]
    rfl
  · rw [if_neg h]
    show (((q, c) :: fs.files).find? (fun r => r.1 == p)).map Prod.snd = fs.read? p
    rw [List.find?_cons_of_neg _ (by simp [h])]
    rfl

theorem FS.read?_touch_ne (fs : FS) (q p : String) (h : q ≠ p) :
    (fs.touch q).read? p = fs.read? p := by
  simp only [FS.touch]
  split
  · rfl
  · simp [FS.read?_writeFile, h]

theorem FS.read?_touch_some (fs : FS) (q p : String) (c : List FastaRecord)
    (h : fs.read? p = some c) : (fs.touch q).read? p = some c := by
  by_cases hqp : q = p
  · subst hqp
    simp only [FS.touch]
    split
    · exact h
    · simp [h] at *
  · rw [FS.read?_touch_ne fs q p hqp]
    exact h

theorem FS.read?_touch_self (fs : FS) (p : String) (h : fs.read? p = none) :
    (fs.touch p).read? p = some [] := by
  simp only [FS.touch, h, Option.isSome_none, Bool.false_eq_true, if_false]
  simp [FS.read?_writeFile]

theorem FS.isSome_touch (fs : FS) (q p : String) (h : (fs.read? p).isSome) :
    ((fs.touch q).read? p).isSome := by
  obtain ⟨c, hc⟩ := Option.isSome_iff_exists.mp h
  rw [FS.read?_touch_some fs q p c hc]
  rfl

/-! ### Lemmas about the fold of chunk writes in splitFasta -/

theorem read?_foldl_write_not_mem (pairs : List (String × List FastaRecord)) (fs : FS)
    (p : String) (h : p ∉ pairs.map Prod.fst) :
    (pairs.foldl (fun a pc => a.writeFile pc.1 pc.2) fs).read? p = fs.read? p := by
  induction pairs generalizing fs with
  | nil => rfl
  | cons q rest ih =>
    simp only [List.map_cons, List.mem_cons, not_or] at h
    rw [List.foldl_cons, ih _ h.2, FS.read?_writeFile]
    rw [if_neg (fun hq => h.1 hq.symm)]

theorem isSome_foldl_write (pairs : List (String × List FastaRecord)) (fs : FS)
    (p : String) (h : p ∈ pairs.map Prod.fst) :
    ((pairs.foldl (fun a pc => a.writeFile pc.1 pc.2) fs).read? p).isSome := by
  induction pairs generalizing fs with
  | nil => cases h
  | cons q rest ih =>
    rw [List.foldl_cons]
    by_cases hrest : p ∈ rest.map Prod.fst
    · exact ih _ hrest
    · have hq : q.1 = p := by
        simp only [List.map_cons, List.mem_cons] at h
        rcases h with h1 | h1
        · exact h1.symm
        · exact absurd h1 hrest
      rw [read?_foldl_write_not_mem _ _ _ hrest, FS.read?_writeFile, if_pos hq]
      rfl

theorem read?_foldl_write_nodup (pairs : List (String × List FastaRecord)) (fs : FS)
    (p : String) (c : List FastaRecord) (hmem : (p, c) ∈ pairs)
    (hnd : (pairs.map Prod.fst).Nodup) :
    (pairs.foldl (fun a pc => a.writeFile pc.1 pc.2) fs).read? p = some c := by
  induction pairs generalizing fs with
  | nil => cases hmem
  | cons q rest ih =>
    simp only [List.map_cons, List.nodup_cons] at hnd
    rw [List.foldl_cons]
    rcases List.mem_cons.mp hmem with h | h
    · subst h
      have hnotin : p ∉ rest.map Prod.fst := hnd.1
      rw [read?_foldl_write_not_mem _ _ _ hnotin, FS.read?_writeFile, if_pos rfl]
    · exact ih _ h hnd.2

/-! ### Lemmas about reconciliation -/

theorem reconcile_nil (fs : FS) (done : List String) : reconcile fs [] done = fs := rfl

theorem reconcile_cons (fs : FS) (fa : String) (rest done : List String) :
    reconcile fs (fa :: rest) done =
      reconcile (if fa ∈ done then fs else fs.touch fa) rest done := rfl

theorem reconcile_read?_done (fs : FS) (todo done : List String) (p : String)
    (hp : p ∈ done) : (reconcile fs todo done).read? p = fs.read? p := by
  induction todo generalizing fs with
  | nil => rfl
  | cons fa rest ih =>
    rw [reconcile_cons]
    by_cases hfa : fa ∈ done
    · rw [if_pos hfa]
      exact ih fs
    · have hne : fa ≠ p := fun h => hfa (h ▸ hp)
      rw [if_neg hfa, ih, FS.read?_touch_ne _ _ _ hne]

theorem reconcile_read?_preserve (fs : FS) (todo done : List String) (p : String)
    (c : List FastaRecord) (h : fs.read? p = some c) :
    (reconcile fs todo done).read? p = some c := by
  induction todo generalizing fs with
  | nil => exact h
  | cons fa rest ih =>
    rw [reconcile_cons]
    by_cases hfa : fa ∈ done
    · rw [if_pos hfa]
      exact ih fs h
    · rw [if_neg hfa]
      exact ih _ (FS.read?_touch_some fs fa p c h)

theorem reconcile_read?_todo (fs : FS) (todo done : List String) (p : String)
    (hp : p ∈ todo) (hnd : p ∉ done) :
    (reconcile fs todo done).read? p =
      if (fs.read? p).isSome then fs.read? p else some [] := by
  induction todo generalizing fs with
  | nil => cases hp
  | cons fa rest ih =>
    rw [reconcile_cons]
    by_cases hfa : fa = p
    · subst hfa
      rw [if_neg hnd]
      cases hcase : fs.read? fa with
      | none =>
        rw [reconcile_read?_preserve _ _ _ _ _ (FS.read?_touch_self fs fa hcase)]
        simp [hcase]
      | some c =>
        rw [reconcile_read?_preserve _ _ _ _ _ (FS.read?_touch_some fs fa fa c hcase)]
        simp [hcase]
    · have hp' : p ∈ rest := by
        rcases List.mem_cons.mp hp with h | h
        · exact absurd h.symm hfa
        · exact h
      by_cases hfad : fa ∈ done
      · rw [if_pos hfad]
        exact ih fs hp'
      · rw [if_neg hfad, ih _ hp', FS.read?_touch_ne _ _ _ hfa]

/-! ### Chunking lemmas -/

theorem chunkListGo_nil (n fuel : Nat) : chunkListGo n fuel ([] : List α) = [] := by
  cases fuel <;> rfl

theorem chunkListGo_fuel (n : Nat) (hn : n ≠ 0) :
    ∀ fuel fuel' (l : List α), l.length ≤ fuel → l.length ≤ fuel' →
      chunkListGo n fuel l = chunkListGo n fuel' l := by
  intro fuel
  induction fuel with
  | zero =>
    intro fuel' l h _
    have hl : l = [] := List.length_eq_zero.mp (Nat.le_zero.mp h)
    subst hl
    rw [chunkListGo_nil, chunkListGo_nil]
  | succ fuel ih =>
    intro fuel' l h h'
    cases l with
    | nil => rw [chunkListGo_nil, chunkListGo_nil]
    | cons x xs =>
      cases fuel' with
      | zero => simp at h'
      | succ f' =>
        simp only [chunkListGo]
        congr 1
        have hd : ((x :: xs).drop n).length ≤ fuel := by
          simp only [List.length_drop, List.length_cons]
          simp only [List.length_cons] at h
          omega
        have hd' : ((x :: xs).drop n).length ≤ f' := by
          simp only [List.length_drop, List.length_cons]
          simp only [List.length_cons] at h'
          omega
        exact ih f' _ hd hd'

theorem chunkList_cons (n : Nat) (hn : n ≠ 0) (l : List α) (hl : l ≠ []) :
    chunkList n l = l.take n :: chunkList n (l.drop n) := by
  obtain ⟨x, xs, rfl⟩ := List.exists_cons_of_ne_nil hl
  show chunkListGo n (xs.length + 1) (x :: xs) = _
  simp only [chunkListGo]
  congr 1
  refine chunkListGo_fuel n hn xs.length _ _ ?_ (le_refl _)
  simp only [List.length_drop, List.length_cons]
  omega

theorem chunkList_flatten (n : Nat) (hn : n ≠ 0) (l : List α) :
    (chunkList n l).flatten = l := by
  by_cases hl : l = []
  · subst hl
    rfl
  · rw [chunkList_cons n hn l hl, List.flatten_cons, chunkList_flatten n hn (l.drop n)]
    exact List.take_append_drop n l
termination_by l.length
decreasing_by
  simp only [List.length_drop]
  have hp : 0 < l.length := List.length_pos.mpr hl
  omega

/-! ### Injectivity of the chunk path naming -/

theorem charVal_digitChar : ∀ m, m < 10 → charVal (Nat.digitChar m) = m := by decide

theorem parse_decimalCharsAux (fuel : Nat) :
    ∀ n a : Nat, n ≤ fuel →
      (decimalCharsAux fuel n).foldl (fun x c => 10 * x + charVal c) a =
        a * 10 ^ (decimalCharsAux fuel n).length + n := by
  induction fuel with
  | zero =>
    intro n a h
    have : n = 0 := Nat.le_zero.mp h
    simp [decimalCharsAux, this]
  | succ fuel ih =>
    intro n a h
    by_cases hn : n = 0
    · simp [decimalCharsAux, hn]
    · have hdiv : n / 10 ≤ fuel := by
        have := Nat.div_lt_self (Nat.pos_of_ne_zero hn) (by norm_num : (1:Nat) < 10)
        omega
      simp only [decimalCharsAux, if_neg hn, List.foldl_append, List.foldl_cons,
        List.foldl_nil, List.length_append, List.length_cons, List.length_nil]
      rw [ih (n / 10) a hdiv]
      rw [charVal_digitChar (n % 10) (Nat.mod_lt _ (by norm_num))]
      have hmod := Nat.div_add_mod n 10
      generalize (decimalCharsAux fuel (n / 10)).length = L
      rw [pow_succ]
      ring_nf
      omega

theorem parse_pad2chars (n : Nat) :
    (pad2chars n).foldl (fun x c => 10 * x + charVal c) 0 = n := by
  have hzero : charVal '0' = 0 := rfl
  by_cases h : n < 10
  · simp only [pad2chars, if_pos h, List.foldl_cons, hzero]
    by_cases hn : n = 0
    · simp [decimalChars, hn, hzero]
    · simp only [decimalChars, if_neg hn]
      have := parse_decimalCharsAux n n (10 * 0 + 0) (le_refl n)
      simpa using this
  · have hn : n ≠ 0 := by omega
    simp only [pad2chars, if_neg h, decimalChars, if_neg hn]
    simpa using parse_decimalCharsAux n n 0 (le_refl n)

theorem pad2_injective : Function.Injective pad2 := by
  intro i j h
  have hchars : pad2chars i = pad2chars j := congrArg String.data h
  have hi := parse_pad2chars i
  rw [hchars, parse_pad2chars j] at hi
  exact hi.symm

theorem splitPath_injective (d stem : String) : Function.Injective (splitPath d stem) := by
  intro i j h
  apply pad2_injective
  have hdata := congrArg String.data h
  simp only [splitPath, chunkName, String.data_append] at hdata
  have h1 := List.append_cancel_left hdata
  have h2 := List.append_cancel_right h1
  have h3 := List.append_cancel_left h2
  exact congrArg String.mk h3

/-! ### Claim theorems -/

/-- Claim C1: the claim states that the chunk count resolver returns
max(1, ceil(R / N)), in particular 2 for R = 5, N = 3.  The code disagrees:
line 207 is Python 2, so num_reads / N floors before ceil is applied, and the
resolver returns max(1, floor(5 / 3)) = 1, while the value prescribed by the
spec (and by the module docstring, which promises ceil(num_nfl_reads/N)) is 2.
This theorem evaluates the embedded code at the failing input. -/
theorem C1_resolver_floors_instead_of_ceiling :
    reads_per_split 5 3 = 1 ∧ reads_per_split_spec 5 3 = 2 := by decide

/-- Claim C2: the claim states that after run() the total number of chunk
files is exactly N.  At R = 5 records and N = 3 the code computes
reads_per_split = 1 (the Python 2 floor-division slip of C1), the splitter
writes 5 chunk files, every one of the 3 expected paths is among them, so
reconciliation touches nothing and 5 files remain, not N = 3. -/
theorem C2_five_records_three_chunks_leaves_five_files :
    (IcePartialSplit_run ⟨[], []⟩ "root" "nfl.fa"
        (some [⟨"r0", "A"⟩, ⟨"r1", "C"⟩, ⟨"r2", "G"⟩, ⟨"r3", "T"⟩, ⟨"r4", "A"⟩]) 3).1
      = .ok () ∧
    (IcePartialSplit_run ⟨[], []⟩ "root" "nfl.fa"
        (some [⟨"r0", "A"⟩, ⟨"r1", "C"⟩, ⟨"r2", "G"⟩, ⟨"r3", "T"⟩, ⟨"r4", "A"⟩]) 3).2.files.length
      = 5 := ⟨rfl, by decide⟩

/-- Claim C5 counterexample: the claim states that every N < 1 is rejected
with a configuration error before any file I/O, but the constructor only
checks N ≥ 1000: at N = -5 construction succeeds and a full run with an
existing one-read input completes without any error at all. -/
theorem C5_counterexample_negative_N_not_rejected :
    IcePartialSplit_init (-5) = .ok () ∧
    (IcePartialSplit_run ⟨[], []⟩ "root" "nfl.fa" (some [⟨"r0", "A"⟩]) (-5)).1 = .ok () :=
  ⟨rfl, rfl⟩

/-- Claim C5, amended: construction fails with the configuration error exactly
when N ≥ 1000 (the check is pure, before any I/O); every N < 1000 is accepted
at construction, including N < 1.  N = 0 instead fails later, inside input
validation, with a ZeroDivisionError raised by the records-per-chunk division
(after the output subdirectory was already created). -/
theorem C5_amended_config_error_iff_N_ge_1000 :
    (∀ N : Int, IcePartialSplit_init N = .ok () ↔ N < 1000) ∧
    (∀ (fs : FS) (root_dir nfl_fa : String) (records : List FastaRecord),
      (IcePartialSplit_run fs root_dir nfl_fa (some records) 0).1 =
        .error "ZeroDivisionError: integer division or modulo by zero") := by
  constructor
  · intro N
    by_cases h : (1000 : Int) ≤ N
    · simp only [IcePartialSplit_init, if_pos h]
      constructor
      · intro hcontra
        cases hcontra
      · intro hlt
        omega
    · simp only [IcePartialSplit_init, if_neg h]
      constructor
      · intro _
        omega
      · intro _
        trivial
  · intro fs root_dir nfl_fa records
    rfl

/-- Claim C6: for a missing input path, run fails with the input error whose
message names the missing file, and it does so before the splitter runs: the
run result is exactly the error paired with the state where only the nfl
output directory was created, so the file table is untouched. -/
theorem C6_missing_input_fails_with_descriptive_error (fs : FS)
    (root_dir nfl_fa : String) (N : Int) :
    IcePartialSplit_run fs root_dir nfl_fa none N =
      (.error ("The input non-full-length reads fasta file " ++ nfl_fa ++
        " does not exists. "), fs.mkdir (IceFiles.nfl_dir root_dir)) ∧
    (IcePartialSplit_run fs root_dir nfl_fa none N).2.files = fs.files :=
  ⟨rfl, FS.files_mkdir fs _⟩

/-- Claim C10: when the input FASTA does not exist, run raises during input
validation: no file whatsoever is created (the file table is exactly the
initial one, so neither a chunk nor a placeholder was written and neither
splitFasta nor touch had any effect), while the output subdirectory itself
was created before the existence check. -/
theorem C10_missing_input_creates_no_chunk_but_creates_dir (fs : FS)
    (root_dir nfl_fa : String) (N : Int) :
    (∃ e, (IcePartialSplit_run fs root_dir nfl_fa none N).1 = .error e) ∧
    (IcePartialSplit_run fs root_dir nfl_fa none N).2.files = fs.files ∧
    IceFiles.nfl_dir root_dir ∈ (IcePartialSplit_run fs root_dir nfl_fa none N).2.dirs :=
  ⟨⟨_, rfl⟩, FS.files_mkdir fs _, FS.mem_dirs_mkdir fs _⟩

/-- Claim C9: reconciliation never modifies a file the splitter wrote: for
every path in the splitter's returned list, its contents after the
reconciliation loop are exactly its contents before (touch is applied only to
expected paths absent from that list). -/
theorem C9_reconcile_preserves_splitter_files (fs : FS)
    (splitted_fas_todo splitted_fas_done : List String) (p : String)
    (hp : p ∈ splitted_fas_done) :
    (reconcile fs splitted_fas_todo splitted_fas_done).read? p = fs.read? p :=
  reconcile_read?_done fs splitted_fas_todo splitted_fas_done p hp

/-- Witness for C9 at a concrete state: a file written by the splitter keeps
its contents through reconciliation. -/
theorem C9_reconcile_preserves_splitter_files_witness :
    ("a" ∈ ["a"] ∧
      (reconcile ⟨[], [("a", [⟨"r0", "A"⟩])]⟩ ["a", "b"] ["a"]).read? "a" =
        (FS.mk [] [("a", [⟨"r0", "A"⟩])]).read? "a") :=
  ⟨by decide, C9_reconcile_preserves_splitter_files _ _ _ _ (by decide)⟩

/-- Claim C8: the SAM filter output keeps every header line unchanged and
exactly those alignment lines whose CIGAR string matches the
operator-and-length grammar, preserving order; in particular, on a header
plus a valid-CIGAR line plus a line with CIGAR 5M3X2I (invalid operator X),
the output is the header and the valid line only. -/
theorem C8_filter_sam_headers_and_valid_cigars :
    (∀ input : List SamLine,
        (filter_sam input).Sublist input ∧
        (∀ s, SamLine.header s ∈ filter_sam input ↔ SamLine.header s ∈ input) ∧
        (∀ c t, SamLine.aln c t ∈ filter_sam input ↔
          (SamLine.aln c t ∈ input ∧ validCigar c = true))) ∧
    validCigar "5M" = true ∧
    validCigar "5M3X2I" = false ∧
    filter_sam
        [SamLine.header "@SQ SN:isoform1 LN:3931",
         SamLine.aln "5M" "read1 0 isoform1 1 30 5M * 0 0 ACGTA *",
         SamLine.aln "5M3X2I" "read2 0 isoform1 1 30 5M3X2I * 0 0 ACGTAGCATG *"]
      = [SamLine.header "@SQ SN:isoform1 LN:3931",
         SamLine.aln "5M" "read1 0 isoform1 1 30 5M * 0 0 ACGTA *"] := by
  refine ⟨fun input => ⟨List.filter_sublist _, fun s => ?_, fun c t => ?_⟩,
    by decide, by decide, by decide⟩
  · simp [filter_sam, List.mem_filter, keepSamLine]
  · simp [filter_sam, List.mem_filter, keepSamLine]

/-! ### Unfolding helpers for the successful run path -/

theorem splitFasta_fst (fs : FS) (records : List FastaRecord) (n : Nat) (d stem : String) :
    (splitFasta fs records n d stem).1 =
      ((chunkList n records).enum.map (fun ic => (splitPath d stem ic.1, ic.2))).map
        Prod.fst := rfl

theorem splitFasta_snd (fs : FS) (records : List FastaRecord) (n : Nat) (d stem : String) :
    (splitFasta fs records n d stem).2 =
      ((chunkList n records).enum.map (fun ic => (splitPath d stem ic.1, ic.2))).foldl
        (fun a pc => a.writeFile pc.1 pc.2) fs := rfl

theorem IcePartialSplit_run_some_fst (fs : FS) (root_dir nfl_fa : String)
    (records : List FastaRecord) (N : Int) (hN : N ≠ 0) :
    (IcePartialSplit_run fs root_dir nfl_fa (some records) N).1 = .ok () := by
  simp only [IcePartialSplit_run, IcePartialSplit_validate_inputs, if_neg hN]

theorem IcePartialSplit_run_some_snd (fs : FS) (root_dir nfl_fa : String)
    (records : List FastaRecord) (N : Int) (hN : N ≠ 0) :
    (IcePartialSplit_run fs root_dir nfl_fa (some records) N).2 =
      reconcile
        (splitFasta (fs.mkdir (IceFiles.nfl_dir root_dir)) records
          (reads_per_split (num_reads_in_fasta records) N).toNat
          (IceFiles.nfl_dir root_dir) "input.split").2
        ((List.range N.toNat).map (IceFiles.nfl_fa_i root_dir))
        (splitFasta (fs.mkdir (IceFiles.nfl_dir root_dir)) records
          (reads_per_split (num_reads_in_fasta records) N).toNat
          (IceFiles.nfl_dir root_dir) "input.split").1 := by
  simp only [IcePartialSplit_run, IcePartialSplit_validate_inputs, if_neg hN,
    Option.getD_some]

/-- Claim C3: for every N ≥ 1 and existing input, run completes successfully
and every expected chunk file path with index 0..N-1 exists afterwards: a
path the splitter reported keeps its written file, and reconciliation touches
an empty placeholder into existence at every other expected path. -/
theorem C3_every_expected_chunk_path_exists (fs : FS) (root_dir nfl_fa : String)
    (records : List FastaRecord) (N : Int) (hN : 1 ≤ N) :
    (IcePartialSplit_run fs root_dir nfl_fa (some records) N).1 = .ok () ∧
    ∀ i : Nat, i < N.toNat →
      (((IcePartialSplit_run fs root_dir nfl_fa (some records) N).2).read?
        (IceFiles.nfl_fa_i root_dir i)).isSome := by
  have hN0 : N ≠ 0 := by omega
  refine ⟨IcePartialSplit_run_some_fst fs root_dir nfl_fa records N hN0, ?_⟩
  intro i hi
  rw [IcePartialSplit_run_some_snd fs root_dir nfl_fa records N hN0,
    splitFasta_fst, splitFasta_snd]
  set d := IceFiles.nfl_dir root_dir with hd
  set fs1 := fs.mkdir d with hfs1
  set rps := (reads_per_split (num_reads_in_fasta records) N).toNat with hrps
  set pairs := (chunkList rps records).enum.map
    (fun ic => (splitPath d "input.split" ic.1, ic.2)) with hpairs
  by_cases hp : IceFiles.nfl_fa_i root_dir i ∈ pairs.map Prod.fst
  · rw [reconcile_read?_done _ _ _ _ hp]
    exact isSome_foldl_write pairs fs1 _ hp
  · have hptodo : IceFiles.nfl_fa_i root_dir i ∈
        (List.range N.toNat).map (IceFiles.nfl_fa_i root_dir) :=
      List.mem_map.mpr ⟨i, List.mem_range.mpr hi, rfl⟩
    rw [reconcile_read?_todo _ _ _ _ hptodo hp]
    by_cases hF : ((pairs.foldl (fun a pc => a.writeFile pc.1 pc.2) fs1).read?
        (IceFiles.nfl_fa_i root_dir i)).isSome
    · rw [if_pos hF]
      exact hF
    · rw [if_neg hF]
      rfl

/-- Witness for C3: for a one-record input and N = 2, the expected chunk path
with index 1 exists after run. -/
theorem C3_every_expected_chunk_path_exists_witness :
    (((IcePartialSplit_run ⟨[], []⟩ "root" "nfl.fa" (some [⟨"r0", "A"⟩]) 2).2).read?
      (IceFiles.nfl_fa_i "root" 1)).isSome :=
  (C3_every_expected_chunk_path_exists ⟨[], []⟩ "root" "nfl.fa" [⟨"r0", "A"⟩] 2
    (by decide)).2 1 (by decide)

/-- Claim C4: splitting then concatenating is the identity on the record
sequence: reading back the files at the paths the splitter returned, in
chunk-index order, and concatenating their contents reproduces exactly the
original records with identifiers and order preserved. -/
theorem C4_split_then_concat_is_identity (fs : FS) (records : List FastaRecord)
    (rps : Nat) (d stem : String) (h : 1 ≤ rps) :
    ((splitFasta fs records rps d stem).1.map
        (fun p => ((splitFasta fs records rps d stem).2.read? p).getD [])).flatten
      = records := by
  have hn : rps ≠ 0 := by omega
  rw [splitFasta_fst, splitFasta_snd]
  set pairs := (chunkList rps records).enum.map
    (fun ic => (splitPath d stem ic.1, ic.2)) with hpairs
  have hkeys : pairs.map Prod.fst =
      (List.range (chunkList rps records).length).map (splitPath d stem) := by
    rw [hpairs, List.map_map]
    have hcomp : (Prod.fst ∘ fun ic : Nat × List FastaRecord =>
        (splitPath d stem ic.1, ic.2)) = (splitPath d stem) ∘ Prod.fst := rfl
    rw [hcomp, ← List.map_map, List.enum_map_fst]
  have hnd : (pairs.map Prod.fst).Nodup := by
    rw [hkeys]
    exact (List.nodup_range _).map (splitPath_injective d stem)
  have hread : ∀ pc ∈ pairs,
      ((pairs.foldl (fun a q => a.writeFile q.1 q.2) fs).read? pc.1) = some pc.2 := by
    intro pc hpc
    have hpc' : (pc.1, pc.2) ∈ pairs := by simpa using hpc
    exact read?_foldl_write_nodup pairs fs pc.1 pc.2 hpc' hnd
  rw [List.map_map]
  have hmap : pairs.map ((fun p =>
      (((pairs.foldl (fun a q => a.writeFile q.1 q.2) fs).read? p).getD [])) ∘ Prod.fst)
      = pairs.map Prod.snd := by
    apply List.map_congr_left
    intro pc hpc
    simp [Function.comp, hread pc hpc]
  rw [hmap, hpairs, List.map_map]
  have hsnd : (chunkList rps records).enum.map
      (Prod.snd ∘ fun ic : Nat × List FastaRecord => (splitPath d stem ic.1, ic.2))
      = (chunkList rps records).enum.map Prod.snd := rfl
  rw [hsnd, List.enum_map_snd]
  exact chunkList_flatten rps hn records

/-- Witness for C4: three records split two per chunk, read back and
concatenated, give back the original sequence. -/
theorem C4_split_then_concat_is_identity_witness :
    ((splitFasta ⟨[], []⟩ [⟨"r0", "A"⟩, ⟨"r1", "C"⟩, ⟨"r2", "G"⟩] 2 "d/" "input.split").1.map
        (fun p => ((splitFasta ⟨[], []⟩ [⟨"r0", "A"⟩, ⟨"r1", "C"⟩, ⟨"r2", "G"⟩] 2
          "d/" "input.split").2.read? p).getD [])).flatten
      = [⟨"r0", "A"⟩, ⟨"r1", "C"⟩, ⟨"r2", "G"⟩] :=
  C4_split_then_concat_is_identity ⟨[], []⟩ [⟨"r0", "A"⟩, ⟨"r1", "C"⟩, ⟨"r2", "G"⟩] 2
    "d/" "input.split" (by decide)

/-- Claim C7: with zero input records and N ≥ 1, run succeeds, the splitter
writes nothing, and reconciliation touches all N expected chunk paths into
existence as empty files: starting from a state with an empty file table,
every expected chunk file exists and is empty afterwards. -/
theorem C7_zero_records_all_chunks_exist_empty (ds : List String)
    (root_dir nfl_fa : String) (N : Int) (hN : 1 ≤ N) :
    (IcePartialSplit_run ⟨ds, []⟩ root_dir nfl_fa (some []) N).1 = .ok () ∧
    ∀ i : Nat, i < N.toNat →
      ((IcePartialSplit_run ⟨ds, []⟩ root_dir nfl_fa (some []) N).2).read?
        (IceFiles.nfl_fa_i root_dir i) = some [] := by
  have hN0 : N ≠ 0 := by omega
  refine ⟨IcePartialSplit_run_some_fst _ _ _ _ _ hN0, ?_⟩
  intro i hi
  rw [IcePartialSplit_run_some_snd _ _ _ _ _ hN0, splitFasta_fst, splitFasta_snd]
  have hchunks : chunkList (reads_per_split (num_reads_in_fasta []) N).toNat
      ([] : List FastaRecord) = [] := rfl
  rw [hchunks]
  simp only [List.enum_nil, List.map_nil, List.foldl_nil]
  have hptodo : IceFiles.nfl_fa_i root_dir i ∈
      (List.range N.toNat).map (IceFiles.nfl_fa_i root_dir) :=
    List.mem_map.mpr ⟨i, List.mem_range.mpr hi, rfl⟩
  rw [reconcile_read?_todo _ _ _ _ hptodo (by simp)]
  have hnone : ((FS.mk ds []).mkdir (IceFiles.nfl_dir root_dir)).read?
      (IceFiles.nfl_fa_i root_dir i) = none := by
    rw [FS.read?_mkdir]
    rfl
  rw [hnone]
  rfl

/-- Witness for C7: with an empty input and N = 3, the chunk file with index
2 exists and is empty after run. -/
theorem C7_zero_records_all_chunks_exist_empty_witness :
    ((IcePartialSplit_run ⟨[], []⟩ "root" "nfl.fa" (some []) 3).2).read?
      (IceFiles.nfl_fa_i "root" 2) = some [] :=
  (C7_zero_records_all_chunks_exist_empty [] "root" "nfl.fa" 3 (by decide)).2 2 (by decide)
